import Mathlib

/-!
Verification development for the honey_badger repository, a simulation of
the Bracha reliable broadcast.

The Rust sources are shallowly embedded:

* `Value` and `NodeId` (`usize` in the source) become `Nat`.
* `HashSet<NodeId>` becomes a duplicate-free `List NodeId`; `HashSet::insert`
  becomes `listInsert`, which appends the element only when it is absent, so
  `List.length` models `HashSet::len` (distinct count) on duplicate-free lists.
* `HashMap<Value, HashSet<NodeId>>` becomes an association list
  `List (Value × List NodeId)`; `HashMap::get` becomes `alGet` and
  `HashMap::insert` (which overwrites an existing binding) becomes `alInsert`.
* A `&mut` handler that also performs channel sends is modelled as a pure
  function returning the updated state together with the list of messages it
  sent, in emission order.
* A Rust panic (`unwrap`, `unreachable!`, a failed `assert!`) is modelled by
  an `Option` result being `none`.

The repository contains two copies of the per-participant protocol logic:
the protocol module `src/protocols/bracha_broadcast.rs` (namespace
`Protocols` below) and an internal copy inside `src/node.rs` (namespace
`NodeSrc` below).  The fabric `src/network.rs` is embedded in namespace
`Network`.
-/

/-- `pub type Value = usize;` from network.rs. -/
def Value : Type := Nat

deriving instance DecidableEq, Repr for Value

instance : OfNat Value n := ⟨(n : Nat)⟩

/-- `pub type NodeId = usize;` from node.rs. -/
def NodeId : Type := Nat

deriving instance DecidableEq, Repr for NodeId

instance : OfNat NodeId n := ⟨(n : Nat)⟩

/-- `pub const NETWORK_ID: NodeId = 10000;` from network.rs. -/
def NETWORK_ID : NodeId := (10000 : Nat)

/-- Model of `HashSet<NodeId>::insert`: add the element when absent.  On a
duplicate-free list this keeps the list duplicate-free, so `List.length`
models `HashSet::len`. -/
def listInsert (s : List NodeId) (x : NodeId) : List NodeId :=
  if x ∈ s then s else s ++ [x]

/-- Model of `HashMap<Value, HashSet<NodeId>>::get`. -/
def alGet (m : List (Value × List NodeId)) (v : Value) : Option (List NodeId) :=
  match m with
  | [] => none
  | (k, s) :: rest => if k = v then some s else alGet rest v

/-- Model of `HashMap<Value, HashSet<NodeId>>::insert`: overwrite the binding
for `v` when present, append it otherwise. -/
def alInsert (m : List (Value × List NodeId)) (v : Value) (s : List NodeId) :
    List (Value × List NodeId) :=
  match m with
  | [] => [(v, s)]
  | (k, t) :: rest => if k = v then (v, s) :: rest else (k, t) :: alInsert rest v s

/-- `struct BroadcastState` — identical in `protocols/bracha_broadcast.rs`
and in `node.rs`.  `echo`/`ready` are `true` while the participant has NOT
yet sent its ECHO / READY (the `echo_sent`/`ready_sent` of the spec are the
negations of these flags);  `echo_received`/`ready_received` map each value
to the set of peers that sent ECHO / READY for it. -/
structure BroadcastState where
  echo : Bool
  ready : Bool
  echo_received : List (Value × List NodeId)
  ready_received : List (Value × List NodeId)
  deriving DecidableEq, Repr

/-- `BroadcastState::new` — both copies initialise the flags to `true`
(nothing sent yet) and the maps to empty. -/
def BroadcastState.new : BroadcastState :=
  { echo := true, ready := true, echo_received := [], ready_received := [] }

namespace Protocols

/-- `enum BroadcastMessage` from protocols/bracha_broadcast.rs (it has no
`BC_OUTPUT` variant). -/
inductive BroadcastMessage where
  | BC_LEADER (v : Value)
  | BC_INIT (v : Value)
  | BC_ECHO (v : Value)
  | BC_READY (v : Value)
  deriving DecidableEq, Repr

/-- `enum ProtocolState`: the result of one protocol step.  `Terminated v`
models `ProtocolState::Terminated(v)` — the participant delivers `v`,
notifies the fabric and leaves its event loop. -/
inductive ProtocolState where
  | InProcess
  | Terminated (v : Value)
  deriving DecidableEq, Repr

/-- Modelled from the spec: `struct NodeInternals` is referenced by
protocols/bracha_broadcast.rs but its definition is not under src/.  Per the
participant inputs of the spec and derived parameters it carries the participant
identifier, the total count `N`, `f_max = ⌊N/3⌋` (`max_malicious_nodes`),
`honest_min = N − f_max` (`min_honnest_nodes`), the peer identifier list and
the broadcast state.  Only these fields are consulted by `handle_broadcast`. -/
structure NodeInternals where
  id : NodeId
  num_nodes : Nat
  max_malicious_nodes : Nat
  min_honnest_nodes : Nat
  neighbour_nodes : List NodeId
  bc_state : BroadcastState
  deriving DecidableEq, Repr

/-- `NodeInternals::send_to_all` (used as `node.send_to_all(BROADCAST(m))`):
one copy of the message per neighbour, in neighbour order.  The `BROADCAST`
wrapping is left implicit: every send in this handler is a broadcast
payload. -/
def send_to_all (node : NodeInternals) (m : BroadcastMessage) :
    List (NodeId × BroadcastMessage) :=
  node.neighbour_nodes.map (fun i => (i, m))

open BroadcastMessage in
/-- `handle_broadcast` from protocols/bracha_broadcast.rs.  Returns the
updated node, the emitted messages in order, and the `ProtocolState` result.
The source sequence `if ...get(&v).is_none() { insert(v, HashSet::new()) }` followed
by `get_mut(&v).unwrap().insert(from)` is modelled as one `alInsert` of
`listInsert` applied to the current set (`getD []` supplies the freshly
initialised empty set). -/
def handle_broadcast (node : NodeInternals) (sender : NodeId)
    (msg : BroadcastMessage) :
    NodeInternals × List (NodeId × BroadcastMessage) × ProtocolState :=
  match msg with
  | BC_LEADER v =>
    ({ node with bc_state := { node.bc_state with echo := false } },
     send_to_all node (BC_INIT v) ++ send_to_all node (BC_ECHO v),
     ProtocolState.InProcess)
  | BC_INIT v =>
    if node.bc_state.echo then
      ({ node with bc_state := { node.bc_state with echo := false } },
       send_to_all node (BC_ECHO v), ProtocolState.InProcess)
    else
      (node, [], ProtocolState.InProcess)
  | BC_ECHO v =>
    let echo_v_received := listInsert ((alGet node.bc_state.echo_received v).getD []) sender
    let st1 := { node.bc_state with
      echo_received := alInsert node.bc_state.echo_received v echo_v_received }
    if st1.ready then
      if node.min_honnest_nodes - 1 ≤ echo_v_received.length then
        ({ node with bc_state := { st1 with
            ready_received := alInsert st1.ready_received v [],
            ready := false } },
         send_to_all node (BC_READY v), ProtocolState.InProcess)
      else
        ({ node with bc_state := st1 }, [], ProtocolState.InProcess)
    else
      ({ node with bc_state := st1 }, [], ProtocolState.InProcess)
  | BC_READY v =>
    let ready_v_received := listInsert ((alGet node.bc_state.ready_received v).getD []) sender
    let st1 := { node.bc_state with
      ready_received := alInsert node.bc_state.ready_received v ready_v_received }
    if st1.ready then
      if node.max_malicious_nodes < ready_v_received.length then
        ({ node with bc_state := { st1 with ready := false } },
         send_to_all node (BC_READY v), ProtocolState.InProcess)
      else
        ({ node with bc_state := st1 }, [], ProtocolState.InProcess)
    else
      if node.min_honnest_nodes - 1 ≤ ready_v_received.length then
        ({ node with bc_state := st1 }, [], ProtocolState.Terminated v)
      else
        ({ node with bc_state := st1 }, [], ProtocolState.InProcess)

/-- Folding `handle_broadcast` over a list of `(sender, message)` envelopes:
the participant state after handling that sequence. -/
def runBroadcast (node : NodeInternals) (msgs : List (NodeId × BroadcastMessage)) :
    NodeInternals :=
  msgs.foldl (fun n p => (handle_broadcast n p.1 p.2).1) node

end Protocols

namespace NodeSrc

/-- `enum BroadcastMessage` as declared inside node.rs (this copy has the
extra `BC_OUTPUT` variant used as the termination notice). -/
inductive BroadcastMessage where
  | BC_LEADER (v : Value)
  | BC_INIT (v : Value)
  | BC_ECHO (v : Value)
  | BC_READY (v : Value)
  | BC_OUTPUT (v : Value)
  deriving DecidableEq, Repr

/-- The message enum as node.rs pattern-matches it: `VALUE(v)`,
`BROADCAST(bc_msg)` and a payload-free `END` (node.rs both matches `END`
and constructs `END` without a payload). -/
inductive Message where
  | VALUE (v : Value)
  | BROADCAST (m : BroadcastMessage)
  | END
  deriving DecidableEq, Repr

/-- `struct NetworkMessage { from, to, msg }`; `from` is a Lean keyword, so
the field is called `fromId` (and `to` is `toId` for symmetry). -/
structure NetworkMessage where
  fromId : NodeId
  toId : NodeId
  msg : Message
  deriving DecidableEq, Repr

/-- `struct NodeState` from node.rs (the channel handles `tx`/`rx` are
replaced by returning the sent messages and taking received ones as
arguments). -/
structure NodeState where
  id : NodeId
  num_nodes : Nat
  max_faulty_nodes : Nat
  min_honnest_nodes : Nat
  neighbour_nodes : List NodeId
  bc_state : BroadcastState
  deriving DecidableEq, Repr

/-- `NodeState::send_bc_to_all`: one `BROADCAST` envelope from this node to
each neighbour, in neighbour order. -/
def send_bc_to_all (node : NodeState) (m : BroadcastMessage) :
    List NetworkMessage :=
  node.neighbour_nodes.map (fun i => ⟨node.id, i, Message.BROADCAST m⟩)

open BroadcastMessage in
/-- `NodeState::handle_broadcast` from node.rs.  Result: updated state, sent
envelopes in order, and the returned bool (`true` = keep waiting, `false` =
terminate).  `none` models the `unreachable!` panic on `BC_OUTPUT`.  Note the
thresholds here are `min_honnest_nodes` without the `- 1` offset used by the
protocols/bracha_broadcast.rs copy. -/
def handle_broadcast (node : NodeState) (sender : NodeId)
    (msg : BroadcastMessage) :
    Option (NodeState × List NetworkMessage × Bool) :=
  match msg with
  | BC_LEADER v =>
    some ({ node with bc_state := { node.bc_state with echo := false } },
      send_bc_to_all node (BC_INIT v) ++ send_bc_to_all node (BC_ECHO v),
      true)
  | BC_INIT v =>
    if node.bc_state.echo then
      some ({ node with bc_state := { node.bc_state with echo := false } },
        send_bc_to_all node (BC_ECHO v), true)
    else
      some (node, [], true)
  | BC_ECHO v =>
    let echo_v_received := listInsert ((alGet node.bc_state.echo_received v).getD []) sender
    let st1 := { node.bc_state with
      echo_received := alInsert node.bc_state.echo_received v echo_v_received }
    if st1.ready then
      if node.min_honnest_nodes ≤ echo_v_received.length then
        some ({ node with bc_state := { st1 with
            ready_received := alInsert st1.ready_received v [],
            ready := false } },
          send_bc_to_all node (BC_READY v), true)
      else
        some ({ node with bc_state := st1 }, [], true)
    else
      some ({ node with bc_state := st1 }, [], true)
  | BC_READY v =>
    let ready_v_received := listInsert ((alGet node.bc_state.ready_received v).getD []) sender
    let st1 := { node.bc_state with
      ready_received := alInsert node.bc_state.ready_received v ready_v_received }
    if st1.ready then
      if node.max_faulty_nodes < ready_v_received.length then
        some ({ node with bc_state := { st1 with ready := false } },
          send_bc_to_all node (BC_READY v), true)
      else
        some ({ node with bc_state := st1 }, [], true)
    else
      if node.min_honnest_nodes ≤ ready_v_received.length then
        some ({ node with bc_state := st1 },
          [⟨node.id, NETWORK_ID, Message.BROADCAST (BC_OUTPUT v)⟩], false)
      else
        some ({ node with bc_state := st1 }, [], true)
  | BC_OUTPUT _ => none

/-- `NodeState::handle_msg` from node.rs.  On `END` the node confirms with an
`END` envelope to the network and returns `false` (terminate). -/
def handle_msg (node : NodeState) (m : NetworkMessage) :
    Option (NodeState × List NetworkMessage × Bool) :=
  match m.msg with
  | Message.VALUE _ => some (node, [], true)
  | Message.BROADCAST bm => handle_broadcast node m.fromId bm
  | Message.END =>
    some (node, [⟨node.id, NETWORK_ID, Message.END⟩], false)

/-- One iteration of the event loop spawned in `Node::new`: handle the
received envelope; when `handle_msg` returns `false` the loop additionally
sends a final `END` to the network and breaks. -/
def loopStep (node : NodeState) (m : NetworkMessage) :
    Option (NodeState × List NetworkMessage × Bool) :=
  match handle_msg node m with
  | none => none
  | some (node1, out, cont) =>
    if cont then some (node1, out, true)
    else some (node1, out ++ [⟨node1.id, NETWORK_ID, Message.END⟩], false)

end NodeSrc

/-- Fuel-driven floor logarithm base 2 (structural recursion so that the
kernel can evaluate it on concrete inputs). -/
def lg (fuel n : Nat) : Nat :=
  match fuel with
  | 0 => 0
  | fuel + 1 => if n ≤ 1 then 0 else lg fuel (n / 2) + 1

/-- `log2floor n` is `⌊log₂ n⌋` for `n ≥ 1` (see `log2floor_spec`). -/
def log2floor (n : Nat) : Nat := lg n n

/-- Round-to-nearest, ties-to-even selection of the quotient: given
`q = s / d` and `r = s % d`, pick `q` or `q + 1` so that `m * d` is the
multiple of `d` nearest to `s` (on a tie, the one with even `m`). -/
def rne (q r d : Nat) : Nat :=
  if 2 * r < d then q
  else if d < 2 * r then q + 1
  else if q % 2 = 0 then q else q + 1

/-!
Model of the 32-bit floating-point arithmetic used by `Network::new` in
network.rs: `assert!((num_malicious as f32) < (num_nodes as f32) / 3.0)`.

The Rust `usize → f32` cast rounds to the nearest representable value, ties to
even, and IEEE-754 `f32` division is correctly rounded in the same mode.
Every value that can arise here — `b as f32`, `N as f32` and
`(N as f32) / 3.0` for `N ≥ 1` (a float that is `0` or `≥ 1/4`) — is an
integer multiple of `2⁻²⁵`, so floats are represented exactly as natural
numbers scaled by `2²⁵`.
-/

/-- `n as f32`, scaled by `2²⁵`: exact for `n ≤ 2²⁴`, otherwise round the
24-bit significand to nearest, ties to even. -/
def toF32s (n : Nat) : Nat :=
  if n ≤ 2 ^ 24 then n * 2 ^ 25
  else
    let k := log2floor n
    let u := 2 ^ (k - 23)
    rne (n / u) (n % u) u * u * 2 ^ 25

/-- IEEE `f32` division by `3.0` on a scaled float `s` (`s` = value·`2²⁵`,
value `≥ 1` or `0`): the exact quotient `s/3` rounded to the nearest
representable significand, ties to even.  The quotient of a value in
`[2ᵏ, 2ᵏ⁺¹)` by 3 lies in `[2ᵏ⁻², 2ᵏ⁻¹) ∪ [2ᵏ⁻¹, 2ᵏ)`; the branch on
`3·2ᵏ⁺²⁴ ≤ s`, i.e. value `≥ 3·2ᵏ⁻¹`, selects the binade and with it the
unit in the last place (`su`, scaled). -/
def f32div3s (s : Nat) : Nat :=
  if s = 0 then 0
  else
    let k := log2floor s - 25
    let su := if 3 * 2 ^ (k + 24) ≤ s then 2 ^ (k + 1) else 2 ^ k
    let d := 3 * su
    rne (s / d) (s % d) d * su

/-- `struct Network` as far as the claims consult it: the participant count,
the honest/Byzantine split (`0..num_good` honest, the rest Byzantine) and
the spawned node identifiers (`Node::new` is called once per id in
`0..num_nodes`). -/
structure Network where
  num_nodes : Nat
  num_good : Nat
  nodes : List NodeId
  deriving DecidableEq, Repr

namespace Network

/-- `Network::new(num_nodes, num_malicious, kind)` from network.rs.  `none`
models the failed `assert!((num_malicious as f32) < (num_nodes as f32) / 3.0)`
panic, raised before any thread is spawned; otherwise one node per id in
`0..num_nodes` is constructed and started (the strategy `kind` does not
affect anything the claims consult, so it is not a parameter here). -/
def new (num_nodes num_malicious : Nat) : Option Network :=
  if toF32s num_malicious < f32div3s (toF32s num_nodes) then
    some { num_nodes := num_nodes,
           num_good := num_nodes - num_malicious,
           nodes := (List.range num_nodes).map (fun i => (i : NodeId)) }
  else
    none

/-- The fabric-side view of one incoming envelope: either a termination
notice `END(v)` from a node or any other (relayed) traffic. -/
inductive FabricMsg where
  | END (v : Value)
  | OTHER
  deriving DecidableEq, Repr

/-- An envelope as received on the aggregated inbox of the fabric. -/
structure FabricEnvelope where
  fromId : NodeId
  msg : FabricMsg
  deriving DecidableEq, Repr

/-- Model of `results.insert(node_id, v)`: overwrite or append. -/
def resInsert (m : List (NodeId × Value)) (i : NodeId) (v : Value) :
    List (NodeId × Value) :=
  match m with
  | [] => [(i, v)]
  | (k, w) :: rest => if k = i then (i, v) :: rest else (k, w) :: resInsert rest i v

/-- The relay loop of `Network::run_network`, over the stream of envelopes
the aggregated inbox will yield before all senders close.  `live` is the key
set of `self.nodes`, `good` the honest identifiers, `good_running` the count
of honest nodes still running, `results` the delivered map so far.  `none`
models a panic: `self.rx.recv().unwrap()` when the stream is exhausted with
the loop still running, or the `expect` (cannot terminate a node twice) on a
repeated `END` from the same node.  The loop returns `results` once
`good_running` reaches zero; relayed (non-`END`) traffic does not change any
of the tracked state. -/
def run_network_go (live good : List NodeId) (good_running : Nat)
    (results : List (NodeId × Value)) (stream : List FabricEnvelope) :
    Option (List (NodeId × Value)) :=
  match stream with
  | [] => none
  | e :: rest =>
    match e.msg with
    | FabricMsg.END v =>
      if e.fromId ∈ live then
        let results1 := resInsert results e.fromId v
        let live1 := live.erase e.fromId
        if e.fromId ∈ good then
          if good_running - 1 = 0 then some results1
          else run_network_go live1 good (good_running - 1) results1 rest
        else run_network_go live1 good good_running results1 rest
      else none
    | FabricMsg.OTHER => run_network_go live good good_running results rest

/-- The correctness evaluation at the end of `Network::bracha_broadcast`
(network.rs lines 121-132), as a function of the delivered map produced by
`run_network`, the honest-node count and the broadcast value.  `none` models
the `results.values().next().unwrap()` panic on an empty map; the head of
the list plays the role of the arbitrary first element of `HashMap::values`. -/
def bracha_success (results : List (NodeId × Value)) (num_good : Nat)
    (v : Value) : Option Bool :=
  match results with
  | [] => none
  | (_, first) :: _ =>
    let termination := results.length = num_good
    let agreement := results.all (fun p => p.2 = first)
    let validity := agreement && decide (first = v)
    some (decide termination && agreement && validity)

/-- `Network::bracha_broadcast` after the initial `LEADER` injection: run the
relay loop on the aggregated-inbox stream, then evaluate the correctness
predicates on the delivered map.  `none` models a panic in either stage. -/
def bracha_broadcast (live good : List NodeId) (num_good : Nat) (v : Value)
    (stream : List FabricEnvelope) :
    Option (Bool × List (NodeId × Value)) :=
  match run_network_go live good num_good [] stream with
  | none => none
  | some results =>
    match bracha_success results num_good v with
    | none => none
    | some ok => some (ok, results)

end Network

/-- The participant-internal state corresponding to a protocol-module node:
same identifier, counts, thresholds (`max_faulty_nodes` is the node.rs name
for `max_malicious_nodes`), peers and broadcast state. -/
def toNodeState (n : Protocols.NodeInternals) : NodeSrc.NodeState :=
  { id := n.id,
    num_nodes := n.num_nodes,
    max_faulty_nodes := n.max_malicious_nodes,
    min_honnest_nodes := n.min_honnest_nodes,
    neighbour_nodes := n.neighbour_nodes,
    bc_state := n.bc_state }

/-- Inclusion of the protocol-module message enum into the node.rs copy (which
has the extra `BC_OUTPUT`). -/
def toMsg5 : Protocols.BroadcastMessage → NodeSrc.BroadcastMessage
  | Protocols.BroadcastMessage.BC_LEADER v => NodeSrc.BroadcastMessage.BC_LEADER v
  | Protocols.BroadcastMessage.BC_INIT v => NodeSrc.BroadcastMessage.BC_INIT v
  | Protocols.BroadcastMessage.BC_ECHO v => NodeSrc.BroadcastMessage.BC_ECHO v
  | Protocols.BroadcastMessage.BC_READY v => NodeSrc.BroadcastMessage.BC_READY v

/-- Peer emissions of the protocol-module handler, wrapped into node.rs
envelopes (`send_bc_to_all` tags each send with the node id and `BROADCAST`). -/
def wrapEms (id : NodeId) (ems : List (NodeId × Protocols.BroadcastMessage)) :
    List NodeSrc.NetworkMessage :=
  ems.map (fun p => ⟨id, p.1, NodeSrc.Message.BROADCAST (toMsg5 p.2)⟩)

/-- The node.rs rendition of a protocol outcome: delivery of `v` is announced
by a `BC_OUTPUT(v)` envelope to the fabric, in-process outcomes emit
nothing. -/
def outcomeEms (id : NodeId) : Protocols.ProtocolState → List NodeSrc.NetworkMessage
  | Protocols.ProtocolState.InProcess => []
  | Protocols.ProtocolState.Terminated v =>
    [⟨id, NETWORK_ID, NodeSrc.Message.BROADCAST (NodeSrc.BroadcastMessage.BC_OUTPUT v)⟩]

/-- The node.rs rendition of a protocol outcome as the returned
bool (`true` = keep waiting). -/
def contOf : Protocols.ProtocolState → Bool
  | Protocols.ProtocolState.InProcess => true
  | Protocols.ProtocolState.Terminated _ => false

/-- Off the threshold boundary: the post-insert sender count relevant to the
incoming message differs from `honest_min − 1`, the single point where the
two copies of the handler disagree. -/
def offBoundary (n : Protocols.NodeInternals) (s : NodeId) :
    Protocols.BroadcastMessage → Prop
  | Protocols.BroadcastMessage.BC_ECHO v =>
    (listInsert ((alGet n.bc_state.echo_received v).getD []) s).length ≠
      n.min_honnest_nodes - 1
  | Protocols.BroadcastMessage.BC_READY v =>
    (listInsert ((alGet n.bc_state.ready_received v).getD []) s).length ≠
      n.min_honnest_nodes - 1
  | _ => True

/-- Follows the words of claim C2: `success` as the conjunction of
termination (every honest identifier appears in the delivered map),
agreement (all values of the map restricted to the honest identifiers are
equal) and validity (the common delivered value equals the input only when
the leader is honest). -/
def spec_success (results : List (NodeId × Value)) (honest_ids : List NodeId)
    (leader : NodeId) (v : Value) : Bool :=
  let honest_res := results.filter (fun p => decide (p.1 ∈ honest_ids))
  let termination := honest_ids.all (fun i => results.any (fun p => p.1 = i))
  let agreement := honest_res.all (fun p => honest_res.all (fun q => p.2 = q.2))
  let validity :=
    if leader ∈ honest_ids then honest_res.all (fun p => p.2 = v) else true
  termination && agreement && validity

/-- A concrete 4-node protocol-module participant (`f_max = 1`,
`honest_min = 3`) that has already recorded `READY(7)` from peer 5 and has
not yet sent its own `READY`. -/
def node4ready : Protocols.NodeInternals :=
  { id := 0, num_nodes := 4, max_malicious_nodes := 1, min_honnest_nodes := 3,
    neighbour_nodes := [1, 2, 3],
    bc_state := { echo := true, ready := true,
                  echo_received := [], ready_received := [(7, [5])] } }

/-- A concrete 4-node protocol-module participant that has already recorded
`ECHO(7)` from peer 1. -/
def node4echo : Protocols.NodeInternals :=
  { id := 0, num_nodes := 4, max_malicious_nodes := 1, min_honnest_nodes := 3,
    neighbour_nodes := [1, 2, 3],
    bc_state := { echo := true, ready := true,
                  echo_received := [(7, [1])], ready_received := [] } }

/-- A concrete freshly constructed 4-node protocol-module participant. -/
def node4fresh : Protocols.NodeInternals :=
  { id := 0, num_nodes := 4, max_malicious_nodes := 1, min_honnest_nodes := 3,
    neighbour_nodes := [1, 2, 3], bc_state := BroadcastState.new }

/-- A concrete node.rs participant state (4 nodes, fresh broadcast state). -/
def nodeSrc0 : NodeSrc.NodeState :=
  { id := 0, num_nodes := 4, max_faulty_nodes := 1, min_honnest_nodes := 3,
    neighbour_nodes := [1, 2, 3], bc_state := BroadcastState.new }

/-- A concrete 4-node protocol-module participant that has already sent both
its `ECHO` and its `READY` (both latches lowered). -/
def node4sent : Protocols.NodeInternals :=
  { id := 0, num_nodes := 4, max_malicious_nodes := 1, min_honnest_nodes := 3,
    neighbour_nodes := [1, 2, 3],
    bc_state := { echo := false, ready := false,
                  echo_received := [], ready_received := [] } }

/-!
General lemmas about the embedding, followed by one theorem per claim
(with a witness instance for every theorem that carries hypotheses).
-/

theorem alGet_alInsert_self (m : List (Value × List NodeId)) (v : Value)
    (s : List NodeId) : alGet (alInsert m v s) v = some s := by
  induction m with
  | nil => simp [alInsert, alGet]
  | cons h t ih =>
    obtain ⟨k, u⟩ := h
    by_cases hk : k = v
    · simp [alInsert, hk, alGet]
    · simp [alInsert, hk, alGet, ih]

theorem lg_spec (fuel : Nat) : ∀ n : Nat, 1 ≤ n → n ≤ fuel →
    2 ^ lg fuel n ≤ n ∧ n < 2 ^ (lg fuel n + 1) := by
  induction fuel with
  | zero => intro n h1 h2; omega
  | succ f ih =>
    intro n h1 h2
    by_cases hn : n ≤ 1
    · have : n = 1 := by omega
      simp [lg, hn, this]
    · have h2n : 2 ≤ n := by omega
      have hhalf1 : 1 ≤ n / 2 := Nat.one_le_div_iff (by omega) |>.mpr h2n
      have hhalf2 : n / 2 ≤ f := by omega
      obtain ⟨ha, hb⟩ := ih (n / 2) hhalf1 hhalf2
      have hdiv : 2 * (n / 2) ≤ n ∧ n < 2 * (n / 2) + 2 := by omega
      constructor
      · simp only [lg, if_neg hn]
        calc 2 ^ (lg f (n / 2) + 1) = 2 * 2 ^ lg f (n / 2) := by ring
        _ ≤ 2 * (n / 2) := by omega
        _ ≤ n := hdiv.1
      · simp only [lg, if_neg hn]
        calc n < 2 * (n / 2) + 2 := hdiv.2
        _ ≤ 2 * 2 ^ (lg f (n / 2) + 1) := by omega
        _ = 2 ^ (lg f (n / 2) + 1 + 1) := by ring

theorem log2floor_spec (n : Nat) (h : 1 ≤ n) :
    2 ^ log2floor n ≤ n ∧ n < 2 ^ (log2floor n + 1) :=
  lg_spec n n h le_rfl

theorem log2floor_unique (n k : Nat) (h1 : 2 ^ k ≤ n) (h2 : n < 2 ^ (k + 1)) :
    log2floor n = k := by
  have hn : 1 ≤ n := le_trans (Nat.one_le_two_pow) h1
  obtain ⟨ha, hb⟩ := log2floor_spec n hn
  rcases Nat.lt_trichotomy (log2floor n) k with h | h | h
  · exfalso
    have : 2 ^ (log2floor n + 1) ≤ 2 ^ k := Nat.pow_le_pow_right (by omega) (by omega)
    omega
  · exact h
  · exfalso
    have : 2 ^ (k + 1) ≤ 2 ^ log2floor n := Nat.pow_le_pow_right (by omega) (by omega)
    omega

theorem rne_bounds (q r d : Nat) (hd : 0 < d) (hr : r < d) :
    2 * (d * rne q r d) ≤ 2 * (d * q + r) + d ∧
    2 * (d * q + r) ≤ 2 * (d * rne q r d) + d := by
  unfold rne
  split
  · constructor <;> nlinarith
  · split
    · constructor <;> nlinarith
    · split <;> constructor <;> nlinarith

theorem rne_ge (q r d : Nat) : q ≤ rne q r d := by
  unfold rne
  split
  · exact le_rfl
  · split
    · omega
    · split <;> omega

theorem toF32s_small (n : Nat) (h : n ≤ 2 ^ 24) : toF32s n = n * 2 ^ 25 := by
  unfold toF32s
  rw [if_pos h]

theorem toF32s_big (b : Nat) (h : 2 ^ 24 < b) : 2 ^ 49 ≤ toF32s b := by
  have h1 : 1 ≤ b := by omega
  obtain ⟨hlo, hhi⟩ := log2floor_spec b h1
  set k := log2floor b with hk
  have hk24 : 24 ≤ k := by
    by_contra hc
    have : 2 ^ (k + 1) ≤ 2 ^ 24 := Nat.pow_le_pow_right (by omega) (by omega)
    omega
  have hu : (0:Nat) < 2 ^ (k - 23) := Nat.pos_pow_of_pos _ (by omega)
  have hq : 2 ^ 23 ≤ b / 2 ^ (k - 23) := by
    rw [Nat.le_div_iff_mul_le hu]
    calc 2 ^ 23 * 2 ^ (k - 23) = 2 ^ (23 + (k - 23)) := by rw [pow_add]
    _ = 2 ^ k := by congr 1; omega
    _ ≤ b := hlo
  have hm : 2 ^ 23 ≤ rne (b / 2 ^ (k - 23)) (b % 2 ^ (k - 23)) (2 ^ (k - 23)) :=
    le_trans hq (rne_ge _ _ _)
  have : toF32s b =
      rne (b / 2 ^ (k - 23)) (b % 2 ^ (k - 23)) (2 ^ (k - 23)) * 2 ^ (k - 23) * 2 ^ 25 := by
    unfold toF32s
    rw [if_neg (by omega)]
  rw [this]
  calc (2:Nat) ^ 49 = 2 ^ 23 * 2 ^ (24 - 23) * 2 ^ 25 := by norm_num
  _ ≤ rne (b / 2 ^ (k - 23)) (b % 2 ^ (k - 23)) (2 ^ (k - 23)) * 2 ^ (k - 23) * 2 ^ 25 := by
      have : (2:Nat) ^ (24 - 23) ≤ 2 ^ (k - 23) := Nat.pow_le_pow_right (by omega) (by omega)
      exact Nat.mul_le_mul (Nat.mul_le_mul hm this) le_rfl

theorem log2floor_scaled (N : Nat) (h1 : 1 ≤ N) :
    log2floor (N * 2 ^ 25) = log2floor N + 25 := by
  obtain ⟨hlo, hhi⟩ := log2floor_spec N h1
  apply log2floor_unique
  · calc 2 ^ (log2floor N + 25) = 2 ^ log2floor N * 2 ^ 25 := by rw [pow_add]
    _ ≤ N * 2 ^ 25 := Nat.mul_le_mul_right _ hlo
  · calc N * 2 ^ 25 < 2 ^ (log2floor N + 1) * 2 ^ 25 :=
        mul_lt_mul_of_pos_right hhi (by positivity)
    _ = 2 ^ (log2floor N + 25 + 1) := by rw [← pow_add]

theorem f32div3s_char (N : Nat) (h1 : 1 ≤ N) (h2 : N ≤ 2 ^ 24) :
    ∃ e : Nat, e ≤ 24 ∧
      f32div3s (N * 2 ^ 25) =
        rne (N * 2 ^ 25 / (3 * 2 ^ e)) (N * 2 ^ 25 % (3 * 2 ^ e)) (3 * 2 ^ e) * 2 ^ e := by
  obtain ⟨hlo, hhi⟩ := log2floor_spec N h1
  set K := log2floor N with hK
  have hK24 : K ≤ 24 := by
    by_contra hc
    have : 2 ^ 25 ≤ 2 ^ K := Nat.pow_le_pow_right (by omega) (by omega)
    have h24 : (2:Nat) ^ 25 = 2 * 2 ^ 24 := by ring
    omega
  have hs0 : N * 2 ^ 25 ≠ 0 := by positivity
  have hslog : log2floor (N * 2 ^ 25) - 25 = K := by
    rw [log2floor_scaled N h1]; omega
  by_cases htest : 3 * 2 ^ (K + 24) ≤ N * 2 ^ 25
  · refine ⟨K + 1, ?_, ?_⟩
    · -- when the upper sub-binade is selected, K = 24 is impossible
      by_contra hc
      have hKeq : K = 24 := by omega
      have hN : N = 2 ^ 24 := by
        have := hlo
        rw [hKeq] at this
        omega
      rw [hN, hKeq] at htest
      have : (3:Nat) * 2 ^ 48 ≤ 2 ^ 49 := by
        calc (3:Nat) * 2 ^ 48 ≤ 2 ^ 24 * 2 ^ 25 := htest
        _ = 2 ^ 49 := by norm_num
      norm_num at this
    · unfold f32div3s
      rw [if_neg hs0]
      simp only [hslog, if_pos htest]
  · refine ⟨K, by omega, ?_⟩
    unfold f32div3s
    rw [if_neg hs0]
    simp only [hslog, if_neg htest]

open Protocols.BroadcastMessage Protocols.ProtocolState in
/-- C10: when an honest participant receives `LEADER(v)` from the fabric, it
sends `INIT(v)` to all peers, then `ECHO(v)` to all peers (in that order),
and sets `echo_sent` to true (the `echo` latch is lowered); the full output
equality shows that no other state field changes and the step stays
in-process. -/
theorem C10_leader_transition (node : Protocols.NodeInternals) (sender : NodeId)
    (v : Value) :
    Protocols.handle_broadcast node sender (BC_LEADER v) =
      ({ node with bc_state := { node.bc_state with echo := false } },
       node.neighbour_nodes.map (fun i => (i, BC_INIT v)) ++
         node.neighbour_nodes.map (fun i => (i, BC_ECHO v)),
       InProcess) := rfl

open Protocols.BroadcastMessage Protocols.ProtocolState in
/-- C3: on `ECHO(v)` from sender `s` the participant inserts `s` into
`echo_senders[v]`, and if `ready_sent` is false (`ready` latch still up) and
the post-insert count is at least `honest_min − 1`, it sends `READY(v)` to
all peers and sets `ready_sent` to true; below the threshold nothing is sent
and the latch is unchanged. -/
theorem C3_echo_transition (node : Protocols.NodeInternals) (s : NodeId) (v : Value) :
    alGet (Protocols.handle_broadcast node s (BC_ECHO v)).1.bc_state.echo_received v =
      some (listInsert ((alGet node.bc_state.echo_received v).getD []) s) ∧
    (node.bc_state.ready = true →
      node.min_honnest_nodes - 1 ≤
          (listInsert ((alGet node.bc_state.echo_received v).getD []) s).length →
      (Protocols.handle_broadcast node s (BC_ECHO v)).2.1 =
          node.neighbour_nodes.map (fun i => (i, BC_READY v)) ∧
        (Protocols.handle_broadcast node s (BC_ECHO v)).1.bc_state.ready = false) ∧
    (node.bc_state.ready = true →
      (listInsert ((alGet node.bc_state.echo_received v).getD []) s).length <
          node.min_honnest_nodes - 1 →
      (Protocols.handle_broadcast node s (BC_ECHO v)).2.1 = [] ∧
        (Protocols.handle_broadcast node s (BC_ECHO v)).1.bc_state.ready = true) := by
  unfold Protocols.handle_broadcast
  by_cases hr : node.bc_state.ready <;>
    by_cases hth : node.min_honnest_nodes - 1 ≤
      (listInsert ((alGet node.bc_state.echo_received v).getD []) s).length <;>
    simp [hr, hth, alGet_alInsert_self, Protocols.send_to_all]

open Protocols.BroadcastMessage Protocols.ProtocolState in
/-- C3 witness: instance of `C3_echo_transition` at a concrete node in which
the second `ECHO(7)` reaches the `honest_min − 1 = 2` threshold and triggers
the `READY` broadcast. -/
theorem C3_witness :
    node4echo.bc_state.ready = true ∧
    node4echo.min_honnest_nodes - 1 ≤
      (listInsert ((alGet node4echo.bc_state.echo_received 7).getD []) 2).length ∧
    ((Protocols.handle_broadcast node4echo 2 (BC_ECHO 7)).2.1 =
        node4echo.neighbour_nodes.map (fun i => (i, BC_READY 7)) ∧
      (Protocols.handle_broadcast node4echo 2 (BC_ECHO 7)).1.bc_state.ready = false) :=
  ⟨by decide, by decide,
    (C3_echo_transition node4echo 2 7).2.1 (by decide) (by decide)⟩

open Protocols.BroadcastMessage Protocols.ProtocolState in
/-- C1 counterexample: in a 4-node configuration (`f_max = 1`,
`honest_min − 1 = 2`) with `ready_sent` still false and `READY(7)` already
recorded from peer 5, handling `READY(7)` from peer 6 brings the count to 2,
which meets the delivery threshold — yet the handler stays `InProcess`
(clause (a) fires instead), so clause (b) is NOT evaluated regardless of
`ready_sent` as the claim states. -/
theorem C1_counterexample :
    node4ready.bc_state.ready = true ∧
    node4ready.min_honnest_nodes - 1 ≤
      (listInsert ((alGet node4ready.bc_state.ready_received 7).getD []) 6).length ∧
    (Protocols.handle_broadcast node4ready 6 (BC_READY 7)).2.2 = InProcess ∧
    (Protocols.handle_broadcast node4ready 6 (BC_READY 7)).2.2 ≠ Terminated 7 := by
  decide

open Protocols.BroadcastMessage Protocols.ProtocolState in
/-- C1 (amended): on `READY(v)` from `s` the participant inserts `s` into
`ready_senders[v]`; then, if `ready_sent` was still false at receipt, only
clause (a) runs — the step stays in-process, and `READY(v)` is broadcast with
the latch lowered exactly when the count exceeds `f_max`; delivery (clause
(b), returning `Terminated v`, which stands for setting `delivered`, sending
`END(v)` to the fabric and exiting the loop) is evaluated only when
`ready_sent` was already true, and fires exactly when the count is at least
`honest_min − 1`. -/
theorem C1_ready_transition (node : Protocols.NodeInternals) (s : NodeId) (v : Value) :
    alGet (Protocols.handle_broadcast node s (BC_READY v)).1.bc_state.ready_received v =
      some (listInsert ((alGet node.bc_state.ready_received v).getD []) s) ∧
    (node.bc_state.ready = true →
      (Protocols.handle_broadcast node s (BC_READY v)).2.2 = InProcess ∧
      (node.max_malicious_nodes <
          (listInsert ((alGet node.bc_state.ready_received v).getD []) s).length →
        (Protocols.handle_broadcast node s (BC_READY v)).2.1 =
            node.neighbour_nodes.map (fun i => (i, BC_READY v)) ∧
          (Protocols.handle_broadcast node s (BC_READY v)).1.bc_state.ready = false) ∧
      ((listInsert ((alGet node.bc_state.ready_received v).getD []) s).length ≤
          node.max_malicious_nodes →
        (Protocols.handle_broadcast node s (BC_READY v)).2.1 = [] ∧
          (Protocols.handle_broadcast node s (BC_READY v)).1.bc_state.ready = true)) ∧
    (node.bc_state.ready = false →
      (Protocols.handle_broadcast node s (BC_READY v)).2.1 = [] ∧
      (node.min_honnest_nodes - 1 ≤
          (listInsert ((alGet node.bc_state.ready_received v).getD []) s).length →
        (Protocols.handle_broadcast node s (BC_READY v)).2.2 = Terminated v) ∧
      ((listInsert ((alGet node.bc_state.ready_received v).getD []) s).length <
          node.min_honnest_nodes - 1 →
        (Protocols.handle_broadcast node s (BC_READY v)).2.2 = InProcess)) := by
  unfold Protocols.handle_broadcast
  by_cases hr : node.bc_state.ready <;>
    by_cases ha : node.max_malicious_nodes <
      (listInsert ((alGet node.bc_state.ready_received v).getD []) s).length <;>
    by_cases hd : node.min_honnest_nodes - 1 ≤
      (listInsert ((alGet node.bc_state.ready_received v).getD []) s).length <;>
    simp [hr, ha, hd, alGet_alInsert_self, Protocols.send_to_all]

open Protocols.BroadcastMessage Protocols.ProtocolState in
/-- C1 witness: instance of `C1_ready_transition` at a concrete node where
the amplification clause (a) fires. -/
theorem C1_witness :
    (Protocols.handle_broadcast node4ready 6 (BC_READY 7)).2.2 = InProcess ∧
    (Protocols.handle_broadcast node4ready 6 (BC_READY 7)).2.1 =
      node4ready.neighbour_nodes.map (fun i => (i, BC_READY 7)) :=
  ⟨((C1_ready_transition node4ready 6 7).2.1 (by decide)).1,
    (((C1_ready_transition node4ready 6 7).2.1 (by decide)).2.1 (by decide)).1⟩

/-- C9: for every participant the latches start raised at construction
(`echo = ready = true`, i.e. `echo_sent = ready_sent = false`: nothing
emitted yet); no transition raises a lowered latch (equivalently,
`echo_sent`/`ready_sent` are monotone false→true), and hence over any run
from any state the sent-flags flip at most once and are never lowered. -/
theorem C9_flag_monotonicity :
    (BroadcastState.new.echo = true ∧ BroadcastState.new.ready = true) ∧
    (∀ (node : Protocols.NodeInternals) (s : NodeId) (m : Protocols.BroadcastMessage),
      ((Protocols.handle_broadcast node s m).1.bc_state.echo = true →
        node.bc_state.echo = true) ∧
      ((Protocols.handle_broadcast node s m).1.bc_state.ready = true →
        node.bc_state.ready = true)) ∧
    (∀ (node : Protocols.NodeInternals) (msgs : List (NodeId × Protocols.BroadcastMessage)),
      (node.bc_state.echo = false →
        (Protocols.runBroadcast node msgs).bc_state.echo = false) ∧
      (node.bc_state.ready = false →
        (Protocols.runBroadcast node msgs).bc_state.ready = false)) := by
  have hstep : ∀ (node : Protocols.NodeInternals) (s : NodeId)
      (m : Protocols.BroadcastMessage),
      ((Protocols.handle_broadcast node s m).1.bc_state.echo = true →
        node.bc_state.echo = true) ∧
      ((Protocols.handle_broadcast node s m).1.bc_state.ready = true →
        node.bc_state.ready = true) := by
    intro node s m
    cases m with
    | BC_LEADER v => simp [Protocols.handle_broadcast]
    | BC_INIT v =>
      by_cases he : node.bc_state.echo <;> simp [Protocols.handle_broadcast, he]
    | BC_ECHO v =>
      by_cases hr : node.bc_state.ready <;>
        by_cases hth : node.min_honnest_nodes - 1 ≤
          (listInsert ((alGet node.bc_state.echo_received v).getD []) s).length <;>
        simp [Protocols.handle_broadcast, hr, hth]
    | BC_READY v =>
      by_cases hr : node.bc_state.ready <;>
        by_cases ha : node.max_malicious_nodes <
          (listInsert ((alGet node.bc_state.ready_received v).getD []) s).length <;>
        by_cases hd : node.min_honnest_nodes - 1 ≤
          (listInsert ((alGet node.bc_state.ready_received v).getD []) s).length <;>
        simp [Protocols.handle_broadcast, hr, ha, hd]
  refine ⟨⟨rfl, rfl⟩, hstep, ?_⟩
  intro node msgs
  induction msgs generalizing node with
  | nil => simp [Protocols.runBroadcast]
  | cons hd tl ih =>
    have h1 := hstep node hd.1 hd.2
    have h2 := ih (Protocols.handle_broadcast node hd.1 hd.2).1
    constructor <;> intro h
    · apply h2.1
      by_contra hc
      simp only [Bool.not_eq_false] at hc
      exact absurd (h1.1 hc) (by simp [h])
    · apply h2.2
      by_contra hc
      simp only [Bool.not_eq_false] at hc
      exact absurd (h1.2 hc) (by simp [h])

open Protocols.BroadcastMessage in
/-- C9 witness: instance of `C9_flag_monotonicity` on a run from a node with
both latches already lowered. -/
theorem C9_witness :
    (Protocols.runBroadcast node4sent [(5, BC_READY 7)]).bc_state.echo = false ∧
    (Protocols.runBroadcast node4sent [(5, BC_READY 7)]).bc_state.ready = false :=
  ⟨(C9_flag_monotonicity.2.2 node4sent [(5, BC_READY 7)]).1 (by decide),
    (C9_flag_monotonicity.2.2 node4sent [(5, BC_READY 7)]).2 (by decide)⟩

open Protocols.BroadcastMessage in
/-- C4: the claim (cardinalities of `echo_senders[v]` and `ready_senders[v]`
always equal the number of distinct peers that sent the respective message,
and no transition removes or resets recorded senders) is violated by the
source: in the `BC_ECHO` branch, reaching the echo threshold executes
`ready_received.insert(v, HashSet::new())` unconditionally, wiping the
already-recorded `READY` senders.  From a fresh 4-node participant, after
`READY(7)` from peer 5 the set is `{5}`; two `ECHO(7)` messages later the
threshold fires and the set is reset to `∅`, although peer 5 remains the one
distinct peer that sent `READY(7)`. -/
theorem C4_ready_senders_reset :
    alGet (Protocols.runBroadcast node4fresh
        [(5, BC_READY 7)]).bc_state.ready_received 7 = some [5] ∧
    alGet (Protocols.runBroadcast node4fresh
        [(5, BC_READY 7), (1, BC_ECHO 7), (2, BC_ECHO 7)]).bc_state.ready_received 7 =
      some [] := by decide

open Protocols.BroadcastMessage in
/-- C5 counterexample: the two transition functions are not equal.  On a
4-node participant that has recorded `ECHO(7)` from peer 1, a second
`ECHO(7)` from peer 2 brings the count to `honest_min − 1 = 2`: the protocol
module (threshold `honest_min − 1`) sends `READY` and lowers the latch,
while the node.rs copy (threshold `honest_min`) emits nothing and leaves the
latch up — different successor states and different emissions for the same
input. -/
theorem C5_counterexample :
    (Protocols.handle_broadcast node4echo 2 (BC_ECHO 7)).1.bc_state.ready = false ∧
    (NodeSrc.handle_broadcast (toNodeState node4echo) 2
        (toMsg5 (BC_ECHO 7))).map (fun t => t.1.bc_state.ready) = some true ∧
    (Protocols.handle_broadcast node4echo 2 (BC_ECHO 7)).2.1 ≠ [] ∧
    (NodeSrc.handle_broadcast (toNodeState node4echo) 2
        (toMsg5 (BC_ECHO 7))).map (fun t => t.2.1) = some [] := by decide

/-- C5 (amended): the protocol-module handler and the participant-internal
handler implement the same transitions — same successor state, same
emissions (under the envelope wrapping of node.rs, with `Terminated v`
rendered as the `BC_OUTPUT(v)` notice to the fabric and as returning false) —
at every state and message whose relevant post-insert sender count is not
exactly `honest_min − 1`; at that single boundary the internal copy uses
threshold `honest_min` where the protocol module uses `honest_min − 1` (both
for the echo-quorum rule and the delivery rule), and the two diverge. -/
theorem C5_handler_equivalence (n : Protocols.NodeInternals) (s : NodeId)
    (msg : Protocols.BroadcastMessage) (h : offBoundary n s msg) :
    NodeSrc.handle_broadcast (toNodeState n) s (toMsg5 msg) =
      some (toNodeState (Protocols.handle_broadcast n s msg).1,
            wrapEms n.id (Protocols.handle_broadcast n s msg).2.1 ++
              outcomeEms n.id (Protocols.handle_broadcast n s msg).2.2,
            contOf (Protocols.handle_broadcast n s msg).2.2) := by
  cases msg with
  | BC_LEADER v =>
    simp [Protocols.handle_broadcast, NodeSrc.handle_broadcast, toMsg5, toNodeState,
      wrapEms, outcomeEms, contOf, Protocols.send_to_all, NodeSrc.send_bc_to_all,
      Function.comp_def]
  | BC_INIT v =>
    by_cases he : n.bc_state.echo <;>
      simp [Protocols.handle_broadcast, NodeSrc.handle_broadcast, toMsg5, toNodeState,
        wrapEms, outcomeEms, contOf, Protocols.send_to_all, NodeSrc.send_bc_to_all,
        Function.comp_def, he]
  | BC_ECHO v =>
    have hb : (listInsert ((alGet n.bc_state.echo_received v).getD []) s).length ≠
        n.min_honnest_nodes - 1 := h
    by_cases hr : n.bc_state.ready <;>
      by_cases hth : n.min_honnest_nodes - 1 ≤
        (listInsert ((alGet n.bc_state.echo_received v).getD []) s).length
    · have hth2 : n.min_honnest_nodes ≤
          (listInsert ((alGet n.bc_state.echo_received v).getD []) s).length := by omega
      simp [Protocols.handle_broadcast, NodeSrc.handle_broadcast, toMsg5, toNodeState,
        wrapEms, outcomeEms, contOf, Protocols.send_to_all, NodeSrc.send_bc_to_all,
        Function.comp_def, hr, hth, hth2]
    · have hth2 : ¬ n.min_honnest_nodes ≤
          (listInsert ((alGet n.bc_state.echo_received v).getD []) s).length := by omega
      simp [Protocols.handle_broadcast, NodeSrc.handle_broadcast, toMsg5, toNodeState,
        wrapEms, outcomeEms, contOf, hr, hth, hth2]
    · have hth2 : n.min_honnest_nodes ≤
          (listInsert ((alGet n.bc_state.echo_received v).getD []) s).length := by omega
      simp [Protocols.handle_broadcast, NodeSrc.handle_broadcast, toMsg5, toNodeState,
        wrapEms, outcomeEms, contOf, hr, hth, hth2]
    · have hth2 : ¬ n.min_honnest_nodes ≤
          (listInsert ((alGet n.bc_state.echo_received v).getD []) s).length := by omega
      simp [Protocols.handle_broadcast, NodeSrc.handle_broadcast, toMsg5, toNodeState,
        wrapEms, outcomeEms, contOf, hr, hth, hth2]
  | BC_READY v =>
    have hb : (listInsert ((alGet n.bc_state.ready_received v).getD []) s).length ≠
        n.min_honnest_nodes - 1 := h
    by_cases hr : n.bc_state.ready <;>
      by_cases ha : n.max_malicious_nodes <
        (listInsert ((alGet n.bc_state.ready_received v).getD []) s).length <;>
      by_cases hd : n.min_honnest_nodes - 1 ≤
        (listInsert ((alGet n.bc_state.ready_received v).getD []) s).length <;>
      first
      | (have hd2 : n.min_honnest_nodes ≤
            (listInsert ((alGet n.bc_state.ready_received v).getD []) s).length := by omega
         simp [Protocols.handle_broadcast, NodeSrc.handle_broadcast, toMsg5, toNodeState,
           wrapEms, outcomeEms, contOf, Protocols.send_to_all, NodeSrc.send_bc_to_all,
           Function.comp_def, hr, ha, hd, hd2])
      | (have hd2 : ¬ n.min_honnest_nodes ≤
            (listInsert ((alGet n.bc_state.ready_received v).getD []) s).length := by omega
         simp [Protocols.handle_broadcast, NodeSrc.handle_broadcast, toMsg5, toNodeState,
           wrapEms, outcomeEms, contOf, Protocols.send_to_all, NodeSrc.send_bc_to_all,
           Function.comp_def, hr, ha, hd, hd2])

open Protocols.BroadcastMessage in
/-- C5 witness: instance of `C5_handler_equivalence` on a fresh node handling
a first `ECHO(7)` (post-insert count 1, threshold boundary 2). -/
theorem C5_witness :
    NodeSrc.handle_broadcast (toNodeState node4fresh) 5 (toMsg5 (BC_ECHO 7)) =
      some (toNodeState (Protocols.handle_broadcast node4fresh 5 (BC_ECHO 7)).1,
        wrapEms node4fresh.id (Protocols.handle_broadcast node4fresh 5 (BC_ECHO 7)).2.1 ++
          outcomeEms node4fresh.id (Protocols.handle_broadcast node4fresh 5 (BC_ECHO 7)).2.2,
        contOf (Protocols.handle_broadcast node4fresh 5 (BC_ECHO 7)).2.2) :=
  C5_handler_equivalence node4fresh 5 (BC_ECHO 7) (by simp [offBoundary, node4fresh,
    BroadcastState.new, alGet, listInsert])

/-- C6 counterexample: handling a fabric `END` is NOT emission-free — the
node.rs handler confirms it with an `END` envelope to the network, and the
event-loop epilogue sends a second one; the emitted list is non-empty,
contradicting the claim that the loop exits without the participant emitting
any message. -/
theorem C6_counterexample :
    (NodeSrc.loopStep nodeSrc0 ⟨NETWORK_ID, 0, NodeSrc.Message.END⟩).map
        (fun t => t.2.1) =
      some [⟨0, NETWORK_ID, NodeSrc.Message.END⟩, ⟨0, NETWORK_ID, NodeSrc.Message.END⟩] ∧
    (NodeSrc.loopStep nodeSrc0 ⟨NETWORK_ID, 0, NodeSrc.Message.END⟩).map
        (fun t => t.2.1) ≠ some [] := by decide

/-- C6 (amended): for every participant state and any envelope carrying
`END`, the event loop exits (`false`) with the state unchanged and without
emitting anything to any peer; it does, however, send exactly two `END`
acknowledgement envelopes to the fabric (one from `handle_msg`, one from the
loop epilogue in `Node::new`). -/
theorem C6_end_exit (node : NodeSrc.NodeState) (f t : NodeId) :
    NodeSrc.loopStep node ⟨f, t, NodeSrc.Message.END⟩ =
      some (node,
        [⟨node.id, NETWORK_ID, NodeSrc.Message.END⟩,
         ⟨node.id, NETWORK_ID, NodeSrc.Message.END⟩], false) := rfl

/-- C2 counterexample: with honest set `{0}`, Byzantine leader 1, input 7 and
delivered map `{0 ↦ 5}`, the claimed conjunction holds (termination: 0 is in
the map; agreement: trivially; validity: vacuous since the leader is not
honest) — yet the code returns `success = false`, because its validity check
compares the witnessed value against the input unconditionally, never
consulting leader honesty. -/
theorem C2_counterexample :
    spec_success [(0, 5)] [0] 1 7 = true ∧
    Network.bracha_success [(0, 5)] 1 7 = some false := by decide

/-- C2 (amended): for a non-empty delivered map, `broadcast` returns
`success = true` iff the map has exactly `|honest_ids|` entries and every
value in the whole map (not restricted to honest identifiers) equals the
input `v`; leader honesty is never consulted, and an empty delivered map
makes the evaluation panic (`none`). -/
theorem C2_success_characterization (results : List (NodeId × Value))
    (num_good : Nat) (v : Value) (h : results ≠ []) :
    Network.bracha_success results num_good v = some true ↔
      (results.length = num_good ∧ ∀ p ∈ results, p.2 = v) := by
  match results with
  | [] => exact absurd rfl h
  | (i, first) :: tl =>
    simp only [Network.bracha_success, Option.some_inj, List.all_eq_true,
      Bool.and_eq_true, decide_eq_true_eq]
    constructor
    · rintro ⟨⟨hterm, hagree⟩, _, hfirst⟩
      exact ⟨hterm, fun p hp => (hagree p hp).trans hfirst⟩
    · rintro ⟨hterm, hall⟩
      have hfirst : first = v := hall (i, first) (by simp)
      exact ⟨⟨hterm, fun p hp => (hall p hp).trans hfirst.symm⟩,
             fun p hp => (hall p hp).trans hfirst.symm, hfirst⟩

/-- C2 witness: instance of `C2_success_characterization` on a singleton
delivered map whose value matches the input. -/
theorem C2_witness : Network.bracha_success [(0, 7)] 1 7 = some true :=
  (C2_success_characterization [(0, 7)] 1 7 (by decide)).mpr (by decide)

/-- C7 counterexample: with honest nodes `{0, 1}` still running and the
aggregated inbox already closed (empty stream), `bracha_broadcast` panics
(`none`, modelling `self.rx.recv().unwrap()` on a closed channel) instead of
returning `success = false` with the partial delivered map as the claim
states. -/
theorem C7_counterexample :
    Network.bracha_broadcast [0, 1, 2] [0, 1] 2 7 [] = none := by decide

/-- C7 (amended): whenever the aggregated inbox closes before any
termination notice arrives (in particular before every honest participant
has terminated), the relay loop ends in a panic — `recv().unwrap()` on the
exhausted stream — rather than returning a failure result. -/
theorem C7_closed_inbox_panics (live good : List NodeId) (g : Nat)
    (results : List (NodeId × Value)) (stream : List Network.FabricEnvelope)
    (h : ∀ e ∈ stream, ∀ v, e.msg ≠ Network.FabricMsg.END v) :
    Network.run_network_go live good g results stream = none := by
  induction stream generalizing live g results with
  | nil => rfl
  | cons e rest ih =>
    have he := h e (by simp)
    cases hm : e.msg with
    | END v => exact absurd hm (he v)
    | OTHER =>
      simp only [Network.run_network_go, hm]
      exact ih live g results (fun x hx => h x (by simp [hx]))

/-- C7 witness: instance of `C7_closed_inbox_panics` on a stream holding one
relayed protocol envelope and no termination notice. -/
theorem C7_witness :
    Network.run_network_go [0] [0] 1 [] [⟨5, Network.FabricMsg.OTHER⟩] = none :=
  C7_closed_inbox_panics [0] [0] 1 [] [⟨5, Network.FabricMsg.OTHER⟩]
    (fun e he v => by
      have he2 : e = ⟨5, Network.FabricMsg.OTHER⟩ := by simpa using he
      subst he2
      simp)

/-- C8 counterexample: the configuration check is the `f32` comparison
`(b as f32) < (N as f32) / 3.0`, and 32-bit rounding misclassifies large
inputs in both directions.  With `N = 1073741889 = 3b` (so `3·b ≥ N`, a
configuration error per the claim) both sides round so that the comparison
passes and construction proceeds; with `N = 1073741887` and `3·b < N`
(claimed to proceed) the comparison fails and `Network::new` panics. -/
theorem C8_counterexample :
    (Network.new 1073741889 357913963 ≠ none ∧ 1073741889 ≤ 3 * 357913963) ∧
    (Network.new 1073741887 357913962 = none ∧ 3 * 357913962 < 1073741887) := by
  decide

/-- C8 (amended): restricted to `N ≤ 2²⁴` (where the `f32` cast of `N` is
exact) the claim holds as stated: whenever `3·b ≥ N` the constructor fails
its assertion synchronously — `none`, before any thread is spawned — and
whenever `3·b < N` construction proceeds and spawns exactly `N`
participants. -/
theorem C8_config_check (N b : Nat) (h : N ≤ 2 ^ 24) :
    (N ≤ 3 * b → Network.new N b = none) ∧
    (3 * b < N → (Network.new N b).map (fun net => net.nodes.length) = some N) := by
  by_cases hN : N = 0
  · subst hN
    refine ⟨fun _ => ?_, fun h3 => by omega⟩
    unfold Network.new
    rw [if_neg]
    rw [toF32s_small 0 (by norm_num)]
    simp [f32div3s]
  · have h1 : 1 ≤ N := by omega
    obtain ⟨e, he24, hT⟩ := f32div3s_char N h1 h
    have hd0 : 0 < 3 * 2 ^ e := by positivity
    have hrd : N * 2 ^ 25 % (3 * 2 ^ e) < 3 * 2 ^ e := Nat.mod_lt _ hd0
    have hqr : N * 2 ^ 25 =
        3 * 2 ^ e * (N * 2 ^ 25 / (3 * 2 ^ e)) + N * 2 ^ 25 % (3 * 2 ^ e) :=
      (Nat.div_add_mod _ _).symm
    obtain ⟨hB1, hB2⟩ := rne_bounds (N * 2 ^ 25 / (3 * 2 ^ e))
      (N * 2 ^ 25 % (3 * 2 ^ e)) (3 * 2 ^ e) hd0 hrd
    set m := rne (N * 2 ^ 25 / (3 * 2 ^ e)) (N * 2 ^ 25 % (3 * 2 ^ e)) (3 * 2 ^ e)
      with hmdef
    have hE : 2 ^ e ≤ 2 ^ 24 := Nat.pow_le_pow_right (by norm_num) he24
    have hTN : f32div3s (toF32s N) = m * 2 ^ e := by rw [toF32s_small N h, hT]
    have hdm : 3 * 2 ^ e * m = 3 * (m * 2 ^ e) := by ring
    have hF1 : 2 * (3 * (m * 2 ^ e)) ≤ 2 * (N * 2 ^ 25) + 3 * 2 ^ e := by
      rw [← hdm]; omega
    have hF2 : 2 * (N * 2 ^ 25) ≤ 2 * (3 * (m * 2 ^ e)) + 3 * 2 ^ e := by
      rw [← hdm]; omega
    constructor
    · intro h3b
      by_cases heq : N = 3 * b
      · -- 3·b = N: the quotient is exactly representable, so the rounded
        -- quotient equals b·2²⁵ and the strict comparison fails
        have hb24 : b ≤ 2 ^ 24 := by omega
        have hsplit : 2 ^ e * 2 ^ (25 - e) = 2 ^ 25 := by
          rw [← pow_add]; congr 1; omega
        have hsd : N * 2 ^ 25 = 3 * 2 ^ e * (b * 2 ^ (25 - e)) := by
          rw [heq]
          calc 3 * b * 2 ^ 25 = 3 * b * (2 ^ e * 2 ^ (25 - e)) := by rw [hsplit]
          _ = 3 * 2 ^ e * (b * 2 ^ (25 - e)) := by ring
        have hr0 : N * 2 ^ 25 % (3 * 2 ^ e) = 0 := by
          rw [hsd]; exact Nat.mul_mod_right _ _
        have hq0 : N * 2 ^ 25 / (3 * 2 ^ e) = b * 2 ^ (25 - e) := by
          rw [hsd]; exact Nat.mul_div_cancel_left _ hd0
        have hmq : m = b * 2 ^ (25 - e) := by
          rw [hmdef, hr0, hq0]
          unfold rne
          rw [if_pos (by omega)]
        have hTb : m * 2 ^ e = b * 2 ^ 25 := by
          rw [hmq]
          calc b * 2 ^ (25 - e) * 2 ^ e = b * (2 ^ e * 2 ^ (25 - e)) := by ring
          _ = b * 2 ^ 25 := by rw [hsplit]
        unfold Network.new
        rw [if_neg]
        rw [hTN, hTb, toF32s_small b hb24]
        omega
      · have h3b2 : N < 3 * b := by omega
        by_cases hb : b ≤ 2 ^ 24
        · unfold Network.new
          rw [if_neg]
          rw [hTN, toF32s_small b hb]
          have h24 : (2:Nat) ^ 24 = 16777216 := by norm_num
          have h25 : (2:Nat) ^ 25 = 33554432 := by norm_num
          rw [h25] at hF1 ⊢
          omega
        · have hbig : (2:Nat) ^ 24 < b := by omega
          have h49 : 2 ^ 49 ≤ toF32s b := toF32s_big b hbig
          unfold Network.new
          rw [if_neg]
          rw [hTN]
          have h24 : (2:Nat) ^ 24 = 16777216 := by norm_num
          have h25 : (2:Nat) ^ 25 = 33554432 := by norm_num
          have h49n : (2:Nat) ^ 49 = 562949953421312 := by norm_num
          rw [h25] at hF1
          rw [h49n] at h49
          rw [h24] at hE
          omega
    · intro h3b
      have hb24 : b ≤ 2 ^ 24 := by omega
      have hpass : toF32s b < f32div3s (toF32s N) := by
        rw [hTN, toF32s_small b hb24]
        have h24 : (2:Nat) ^ 24 = 16777216 := by norm_num
        have h25 : (2:Nat) ^ 25 = 33554432 := by norm_num
        rw [h25] at hF2 ⊢
        rw [h24] at hE
        omega
      unfold Network.new
      rw [if_pos hpass]
      have hlen : (List.map (fun i => (i : NodeId)) (List.range N)).length = N := by
        rw [List.length_map, List.length_range]
      exact congrArg some hlen

/-- C8 witness: instance of `C8_config_check` at `N = 10`, for a rejected
`b = 4` and an accepted `b = 3`. -/
theorem C8_witness :
    Network.new 10 4 = none ∧
    (Network.new 10 3).map (fun net => net.nodes.length) = some 10 :=
  ⟨(C8_config_check 10 4 (by norm_num)).1 (by norm_num),
    (C8_config_check 10 3 (by norm_num)).2 (by norm_num)⟩
